import Mathlib

/-!
# Verification of the replicated key/value state machine

Source: `src/statemachine.go` (`KVStateMachine` and its methods) and the `/read`
handler of `src/main.go`.

The state machine reads and writes JSON through Go's `encoding/json`.  That
package is not part of the repository, so the first part of this file is a model of
the behaviour of `json.Unmarshal`, `json.Decoder.Decode` and `json.Encoder.Encode`
for the three Go types the program uses them with (`OpenRaftRequest`,
`map[string]string` and `string`), on the level of the text: a scanner for JSON
text, the decoding of a scanned value into each of the three types, and the
encoder of a map.

Modelling decisions:

* Byte slices and Go strings are Lean strings, that is sequences of Unicode scalar
  values: a payload is valid UTF-8 text.  (The Go decoder replaces invalid UTF-8
  by U+FFFD, so every key and value it stores is of this kind.)
* A Go map is `Option Entries`: `none` is the nil map, `some m` lists the entries
  in increasing key order.
* The mutex of `KVStateMachine` is left out: calls are sequential, and every
  call that returns has released it.  Nothing is stated about calls made after
  a panic, which leaves the lock held.
* `uint64` log indices are natural numbers; the program does no arithmetic on
  them.
* A call that can panic returns `Exec.panicked` in place of a result.
-/

namespace GoJson

/-! ## JSON text: the scanner -/

/-- A scanned JSON value.  No decode target of this program stores a number, a
boolean or the elements of an array, so the scanner checks their syntax and keeps
only their kind. -/
inductive JVal where
  | null
  | bool
  | num
  | str (s : String)
  | arr
  | obj (members : List (String × JVal))

/-- Go `isSpace`: the four JSON whitespace characters. -/
def isSpace (c : Char) : Bool :=
  c = ' ' ∨ c = '\t' ∨ c = '\r' ∨ c = '\n'

/-- Drop leading JSON whitespace. -/
def skipSpace : List Char → List Char
  | [] => []
  | c :: cs => if isSpace c then skipSpace cs else c :: cs

/-- Value of one hexadecimal digit (either case). -/
def hexVal (c : Char) : Option Nat :=
  if 48 ≤ c.toNat ∧ c.toNat ≤ 57 then some (c.toNat - 48)
  else if 97 ≤ c.toNat ∧ c.toNat ≤ 102 then some (c.toNat - 87)
  else if 65 ≤ c.toNat ∧ c.toNat ≤ 70 then some (c.toNat - 55)
  else none

/-- Go `getu4`: the 16-bit code unit written by four hexadecimal digits. -/
def hex4 (a b c d : Char) : Option Nat :=
  match hexVal a, hexVal b, hexVal c, hexVal d with
  | some x, some y, some z, some w => some (((x * 16 + y) * 16 + z) * 16 + w)
  | _, _, _, _ => none

/-- The character of a two-character escape inside a JSON string. -/
def simpleEscape (e : Char) : Option Char :=
  if e = '"' then some '"'
  else if e = '\\' then some '\\'
  else if e = '/' then some '/'
  else if e = 'b' then some (Char.ofNat 8)
  else if e = 'f' then some (Char.ofNat 12)
  else if e = 'n' then some '\n'
  else if e = 'r' then some '\r'
  else if e = 't' then some '\t'
  else none

/-- One item of a scanned string literal: a character (written raw or by a
two-character escape) or the code unit of a `\uXXXX` escape. -/
inductive StrUnit where
  | chr (c : Char)
  | esc (n : Nat)

/-- Scan the body of a string literal, the opening quote already consumed, up to
and including the closing quote.  A raw control character, an unknown escape and
an unterminated literal are syntax errors. -/
def scanString : List Char → Option (List StrUnit × List Char)
  | [] => none
  | c :: rest =>
    if c = '"' then some ([], rest)
    else if c = '\\' then
      match rest with
      | [] => none
      | e :: rest1 =>
        if e = 'u' then
          match rest1 with
          | a :: b :: c1 :: d :: rest2 =>
            match hex4 a b c1 d with
            | none => none
            | some n =>
              match scanString rest2 with
              | none => none
              | some (us, r) => some (StrUnit.esc n :: us, r)
          | _ => none
        else
          match simpleEscape e with
          | none => none
          | some ch =>
            match scanString rest1 with
            | none => none
            | some (us, r) => some (StrUnit.chr ch :: us, r)
    else if c.toNat < 32 then none
    else
      match scanString rest with
      | none => none
      | some (us, r) => some (StrUnit.chr c :: us, r)

/-- The Unicode replacement character U+FFFD. -/
def replacementChar : Char := Char.ofNat 0xFFFD

/-- Whether a code unit is a UTF-16 surrogate. -/
def isSurrogate (n : Nat) : Bool := 0xD800 ≤ n ∧ n < 0xE000

/-- Go `utf16.DecodeRune` on an escape and the item that follows it: the character
of a high surrogate escape directly followed by a low surrogate escape. -/
def surrogatePair (n : Nat) : List StrUnit → Option Char
  | StrUnit.esc m :: _ =>
    if 0xD800 ≤ n ∧ n < 0xDC00 ∧ 0xDC00 ≤ m ∧ m < 0xE000 then
      some (Char.ofNat (0x10000 + (n - 0xD800) * 0x400 + (m - 0xDC00)))
    else none
  | _ => none

/-- Go `unquote`, the part after scanning.  A valid surrogate pair is one
character and consumes both escapes (`skip` is set for the second); any other
surrogate escape becomes U+FFFD. -/
def combineFrom : Bool → List StrUnit → List Char
  | _, [] => []
  | true, _ :: us => combineFrom false us
  | false, StrUnit.chr c :: us => c :: combineFrom false us
  | false, StrUnit.esc n :: us =>
    match surrogatePair n us with
    | some c => c :: combineFrom true us
    | none => (if isSurrogate n then replacementChar else Char.ofNat n) :: combineFrom false us

/-- The characters of a scanned string literal. -/
def combine (us : List StrUnit) : List Char := combineFrom false us

/-- Whether a character is a decimal digit. -/
def isDigit (c : Char) : Bool := 48 ≤ c.toNat ∧ c.toNat ≤ 57

/-- Drop a (possibly empty) run of digits. -/
def skipDigits : List Char → List Char
  | [] => []
  | c :: cs => if isDigit c then skipDigits cs else c :: cs

/-- Consume a non-empty run of digits. -/
def scanDigits1 : List Char → Option (List Char)
  | [] => none
  | c :: cs => if isDigit c then some (skipDigits cs) else none

/-- Consume the optional exponent of a number. -/
def scanExp : List Char → Option (List Char)
  | [] => some []
  | c :: cs =>
    if c = 'e' ∨ c = 'E' then
      match cs with
      | [] => none
      | s :: cs1 => if s = '+' ∨ s = '-' then scanDigits1 cs1 else scanDigits1 cs
    else some (c :: cs)

/-- Consume the optional fraction and exponent of a number. -/
def scanFrac : List Char → Option (List Char)
  | [] => some []
  | c :: cs =>
    if c = '.' then
      match scanDigits1 cs with
      | none => none
      | some r => scanExp r
    else scanExp (c :: cs)

/-- Consume the integer part, then fraction and exponent. -/
def scanInt : List Char → Option (List Char)
  | [] => none
  | c :: cs =>
    if c = '0' then scanFrac cs
    else if isDigit c then scanFrac (skipDigits cs)
    else none

/-- Consume a JSON number and return what follows it. -/
def scanNumber : List Char → Option (List Char)
  | [] => none
  | c :: cs => if c = '-' then scanInt cs else scanInt (c :: cs)

/-- Consume the given characters (the tail of a literal name). -/
def matchLit : List Char → List Char → Option (List Char)
  | [], cs => some cs
  | _ :: _, [] => none
  | l :: ls, c :: cs => if c = l then matchLit ls cs else none

/-- Go `maxNestingDepth`: the scanner refuses deeper nesting of containers. -/
def maxNestingDepth : Nat := 10000

mutual
/-- Scan one JSON value at the head of the input (after optional whitespace) and
return it with the rest of the input.  `fuel` bounds the number of nested calls;
`depth` is the number of containers open around the value. -/
def parseValue : Nat → Nat → List Char → Option (JVal × List Char)
  | 0, _, _ => none
  | fuel + 1, depth, cs =>
    match skipSpace cs with
    | [] => none
    | c :: rest =>
      if c = '{' then
        if depth < maxNestingDepth then
          match skipSpace rest with
          | [] => none
          | c1 :: rest1 =>
            if c1 = '}' then some (JVal.obj [], rest1)
            else
              match parseMembers fuel (depth + 1) (c1 :: rest1) with
              | none => none
              | some (ms, r) => some (JVal.obj ms, r)
        else none
      else if c = '[' then
        if depth < maxNestingDepth then
          match skipSpace rest with
          | [] => none
          | c1 :: rest1 =>
            if c1 = ']' then some (JVal.arr, rest1)
            else
              match parseElements fuel (depth + 1) (c1 :: rest1) with
              | none => none
              | some r => some (JVal.arr, r)
        else none
      else if c = '"' then
        match scanString rest with
        | none => none
        | some (us, r) => some (JVal.str (String.mk (combine us)), r)
      else if c = '-' ∨ isDigit c then
        match scanNumber (c :: rest) with
        | none => none
        | some r => some (JVal.num, r)
      else if c = 't' then
        match matchLit ['r', 'u', 'e'] rest with
        | none => none
        | some r => some (JVal.bool, r)
      else if c = 'f' then
        match matchLit ['a', 'l', 's', 'e'] rest with
        | none => none
        | some r => some (JVal.bool, r)
      else if c = 'n' then
        match matchLit ['u', 'l', 'l'] rest with
        | none => none
        | some r => some (JVal.null, r)
      else none
/-- Scan the members of a non-empty object, from the first key up to and
including the closing brace. -/
def parseMembers : Nat → Nat → List Char → Option (List (String × JVal) × List Char)
  | 0, _, _ => none
  | fuel + 1, depth, cs =>
    match skipSpace cs with
    | [] => none
    | q :: rest =>
      if q = '"' then
        match scanString rest with
        | none => none
        | some (us, r1) =>
          match skipSpace r1 with
          | [] => none
          | colon :: r2 =>
            if colon = ':' then
              match parseValue fuel depth r2 with
              | none => none
              | some (v, r3) =>
                match skipSpace r3 with
                | [] => none
                | sep :: r4 =>
                  if sep = ',' then
                    match parseMembers fuel depth r4 with
                    | none => none
                    | some (ms, r5) => some ((String.mk (combine us), v) :: ms, r5)
                  else if sep = '}' then some ([(String.mk (combine us), v)], r4)
                  else none
            else none
      else none
/-- Scan the elements of a non-empty array, from the first element up to and
including the closing bracket. -/
def parseElements : Nat → Nat → List Char → Option (List Char)
  | 0, _, _ => none
  | fuel + 1, depth, cs =>
    match parseValue fuel depth cs with
    | none => none
    | some (_, r1) =>
      match skipSpace r1 with
      | [] => none
      | sep :: r2 =>
        if sep = ',' then parseElements fuel depth r2
        else if sep = ']' then some r2
        else none
end

/-- The scanner of `json.Decoder.Decode`: the first JSON value of the stream.
What follows that value is left in the stream and is not looked at. -/
def scanFirst (src : String) : Option JVal :=
  match parseValue (src.data.length + 1) 0 src.data with
  | none => none
  | some (v, _) => some v

/-- The scanner of `json.Unmarshal` (`checkValid`): the whole input is one JSON
value, with nothing but whitespace after it. -/
def scanWhole (data : String) : Option JVal :=
  match parseValue (data.data.length + 1) 0 data.data with
  | none => none
  | some (v, rest) => if skipSpace rest = [] then some v else none

/-! ## Go maps -/

/-- The entries of a non-nil Go `map[string]string`, kept in increasing key order
(the order in which `json.Encoder` writes them).  Every key occurs once. -/
abbrev Entries := List (String × String)

/-- Go string order (`strings.Compare(a, b) < 0`): lexicographic; on valid UTF-8
the byte order is the order of the code points. -/
def strLess : List Char → List Char → Bool
  | _, [] => false
  | [], _ :: _ => true
  | a :: as, b :: bs =>
    if a.toNat < b.toNat then true
    else if a.toNat = b.toNat then strLess as bs
    else false

/-- Go `m[k]` with the comma-ok form: the value stored at `k`, if any. -/
def mapGet (k : String) : Entries → Option String
  | [] => none
  | (k1, v1) :: t => if k = k1 then some v1 else mapGet k t

/-- Go `m[k] = v` on a non-nil map: overwrite the slot of `k` or add it. -/
def mapPut (k v : String) : Entries → Entries
  | [] => [(k, v)]
  | (k1, v1) :: t =>
    if strLess k.data k1.data then (k, v) :: (k1, v1) :: t
    else if k = k1 then (k, v) :: t
    else (k1, v1) :: mapPut k v t

/-- Go `m[k]` as an expression: the zero value `""` for a missing key and for a
nil map (`none`). -/
def mapIndex (data : Option Entries) (k : String) : String :=
  match data with
  | none => ""
  | some m => (mapGet k m).getD ""

/-! ## Decoding a scanned value into the Go types of the program -/

/-- Errors of `encoding/json`.  `notJSON` stands for every error of the scanner
(`SyntaxError`, `io.EOF`, `io.ErrUnexpectedEOF`): the input is not JSON.
`wrongType` is `UnmarshalTypeError`: the input is JSON of the wrong shape. -/
inductive GoError where
  | notJSON
  | wrongType
  deriving DecidableEq

/-- Go `decodeState.saveError`: the first error is kept, decoding goes on ("if a
JSON value is not appropriate for a given target type, Unmarshal skips that field
and completes the unmarshaling as best it can", then returns the earliest such
error). -/
def saveError (saved : Option GoError) (e : GoError) : Option GoError :=
  match saved with
  | none => some e
  | some x => some x

/-- ASCII letters are upper-cased; the long s and the Kelvin sign fold to `S` and
`K` (Go `foldName`).  No other character folds to an ASCII letter, and the field
names of this program are ASCII, so other characters are left as they are. -/
def foldChar (c : Char) : Char :=
  if 97 ≤ c.toNat ∧ c.toNat ≤ 122 then Char.ofNat (c.toNat - 32)
  else if c.toNat = 0x17F then 'S'
  else if c.toNat = 0x212A then 'K'
  else c

/-- Whether an object key selects the struct field with the JSON name `name`:
exact match, or equal after case folding. -/
def fieldMatches (name key : String) : Bool :=
  key.data.map foldChar = name.data.map foldChar

/-- Decode one object member into the element of a `map[string]string`, which
starts as `""`: a string is stored, `null` leaves `""`, anything else leaves `""`
and records a type error.  The key is written to the map in all three cases. -/
def decodeMapMember (acc : Entries × Option GoError) (kv : String × JVal) :
    Entries × Option GoError :=
  match kv.2 with
  | JVal.str s => (mapPut kv.1 s acc.1, acc.2)
  | JVal.null => (mapPut kv.1 "" acc.1, acc.2)
  | _ => (mapPut kv.1 "" acc.1, saveError acc.2 GoError.wrongType)

/-- Decode a scanned value into a `map[string]string` variable holding `data`.
`null` sets the variable to the nil map ("the JSON null value unmarshals into an
interface, map, pointer, or slice by setting that Go value to nil").  An object
writes its members, in order, into the map that is there ("if the map is nil,
Unmarshal allocates a new map; otherwise Unmarshal reuses the existing map,
keeping existing entries").  Any other value is a type error and leaves the
variable as it is. -/
def decodeMap (data : Option Entries) (v : JVal) : Option Entries × Option GoError :=
  match v with
  | JVal.null => (none, none)
  | JVal.obj ms =>
    let r := ms.foldl decodeMapMember (data.getD [], none)
    (some r.1, r.2)
  | _ => (data, some GoError.wrongType)

/-- Go `json.NewDecoder(r).Decode(&m)` for `m` of type `map[string]string`. -/
def decodeMapStream (src : String) (data : Option Entries) : Option Entries × Option GoError :=
  match scanFirst src with
  | none => (data, some GoError.notJSON)
  | some v => decodeMap data v

end GoJson

open GoJson

/-! ## The program: `src/statemachine.go` -/

/-- Go `SetRequest`. -/
structure SetRequest where
  Key : String
  Value : String
  deriving DecidableEq

/-- Go `OpenRaftRequest`: `Set` is a pointer, `none` is the nil pointer. -/
structure OpenRaftRequest where
  Set : Option SetRequest
  deriving DecidableEq

namespace GoJson

/-- Decode one member of the object that is the value of `Set` into the
`SetRequest` the pointer refers to.  A member whose key matches neither field is
skipped. -/
def decodeSetMember (acc : SetRequest × Option GoError) (kv : String × JVal) :
    SetRequest × Option GoError :=
  if fieldMatches "key" kv.1 then
    match kv.2 with
    | JVal.str s => ({ acc.1 with Key := s }, acc.2)
    | JVal.null => acc
    | _ => (acc.1, saveError acc.2 GoError.wrongType)
  else if fieldMatches "value" kv.1 then
    match kv.2 with
    | JVal.str s => ({ acc.1 with Value := s }, acc.2)
    | JVal.null => acc
    | _ => (acc.1, saveError acc.2 GoError.wrongType)
  else acc

/-- Decode a value into the field `Set *SetRequest`.  `null` sets the pointer to
nil; any other value allocates the struct when the pointer is nil; an object then
fills it, anything else is a type error. -/
def decodeSetPtr (cur : Option SetRequest) (saved : Option GoError) (v : JVal) :
    Option SetRequest × Option GoError :=
  match v with
  | JVal.null => (none, saved)
  | JVal.obj ms =>
    let r := ms.foldl decodeSetMember (cur.getD ⟨"", ""⟩, saved)
    (some r.1, r.2)
  | _ => (some (cur.getD ⟨"", ""⟩), saveError saved GoError.wrongType)

/-- Decode one member of the top-level object into an `OpenRaftRequest`. -/
def decodeRequestMember (acc : OpenRaftRequest × Option GoError) (kv : String × JVal) :
    OpenRaftRequest × Option GoError :=
  if fieldMatches "Set" kv.1 then
    let r := decodeSetPtr acc.1.Set acc.2 kv.2
    (⟨r.1⟩, r.2)
  else acc

/-- Decode a scanned value into an `OpenRaftRequest`: `null` is a no-op, an object
fills the struct, anything else is a type error. -/
def decodeRequest (req : OpenRaftRequest) (v : JVal) : OpenRaftRequest × Option GoError :=
  match v with
  | JVal.null => (req, none)
  | JVal.obj ms => ms.foldl decodeRequestMember (req, none)
  | _ => (req, some GoError.wrongType)

/-- Go `json.Unmarshal(data, &req)` for `req` of type `OpenRaftRequest`. -/
def unmarshalRequest (data : String) (req : OpenRaftRequest) :
    OpenRaftRequest × Option GoError :=
  match scanWhole data with
  | none => (req, some GoError.notJSON)
  | some v => decodeRequest req v

/-- Go `json.Unmarshal(data, &key)` for `key` of type `string`. -/
def unmarshalString (data : String) (key : String) : String × Option GoError :=
  match scanWhole data with
  | none => (key, some GoError.notJSON)
  | some (JVal.str s) => (s, none)
  | some JVal.null => (key, none)
  | some _ => (key, some GoError.wrongType)

end GoJson

namespace GoJson

/-! ## Encoding a map -/

/-- Lower-case hexadecimal digit of a number below 16 (Go `hex[n]`). -/
def hexDigit (n : Nat) : Char :=
  if n < 10 then Char.ofNat (48 + n) else Char.ofNat (87 + n)

/-- How `json.Encoder` (HTML escaping on, the default) writes one character of a
string: the quote and the backslash take a backslash, five control characters
have a short escape, the other control characters, `<`, `>`, `&`, U+2028 and
U+2029 are written as `\uXXXX`, everything else is written raw. -/
def escapeChar (c : Char) : List Char :=
  if c = '"' then ['\\', '"']
  else if c = '\\' then ['\\', '\\']
  else if c.toNat = 8 then ['\\', 'b']
  else if c.toNat = 12 then ['\\', 'f']
  else if c = '\n' then ['\\', 'n']
  else if c = '\r' then ['\\', 'r']
  else if c = '\t' then ['\\', 't']
  else if c.toNat < 32 ∨ c = '<' ∨ c = '>' ∨ c = '&' then
    ['\\', 'u', '0', '0', hexDigit (c.toNat / 16), hexDigit (c.toNat % 16)]
  else if c.toNat = 0x2028 then ['\\', 'u', '2', '0', '2', '8']
  else if c.toNat = 0x2029 then ['\\', 'u', '2', '0', '2', '9']
  else [c]

/-- The characters of a string, escaped, without the surrounding quotes. -/
def escapeChars : List Char → List Char
  | [] => []
  | c :: cs => escapeChar c ++ escapeChars cs

/-- A string as a JSON string literal. -/
def quote (s : String) : List Char :=
  '"' :: (escapeChars s.data ++ ['"'])

/-- What follows a member of an object: a comma and the next member, or the
closing brace. -/
def encodeTail : Entries → List Char
  | [] => ['}']
  | (k, v) :: rest => ',' :: (quote k ++ (':' :: (quote v ++ encodeTail rest)))

/-- The members of an object, comma separated, then the closing brace. -/
def encodeMembers : Entries → List Char
  | [] => ['}']
  | (k, v) :: rest => quote k ++ (':' :: (quote v ++ encodeTail rest))

/-- Go `json.NewEncoder(w).Encode(m)` for `m` of type `map[string]string`: `null`
for the nil map, else the object with the keys in increasing order; a newline
ends the value. -/
def encodeMap (data : Option Entries) : String :=
  match data with
  | none => String.mk ['n', 'u', 'l', 'l', '\n']
  | some m => String.mk ('{' :: (encodeMembers m ++ ['\n']))

end GoJson

/-- Go `KVStateMachine`.  `data` is the map; `none` is the nil map.  The mutex
`mu` has no content in a sequential model and is left out. -/
structure KVStateMachine where
  data : Option Entries
  deriving DecidableEq

/-- Go `sm.Entry`, the two fields the program reads. -/
structure Entry where
  Index : Nat
  Cmd : String
  deriving DecidableEq

/-- Go `sm.Result`, the field the program sets. -/
structure Result where
  Value : Nat
  deriving DecidableEq

/-- How a call ends: it returns, or it panics. -/
inductive Exec (α : Type) where
  | returned (a : α)
  | panicked
  deriving DecidableEq

/-- A Go `interface{}` value, as far as the program tells values apart. -/
inductive Any where
  | nil
  | string (s : String)
  | other
  deriving DecidableEq

/-- Go `NewKVStateMachine`: an empty, non-nil map; both arguments are unused. -/
def NewKVStateMachine (_clusterID _nodeID : Nat) : KVStateMachine :=
  { data := some [] }

/-- Go `KVStateMachine.Update`.  Returns the state after the call and how the call
ended.  A decode error is returned with the zero `Result`.  With a `Set`, the slot
is written and `Result.Value` is the entry index; writing into the nil map
panics.  Without a `Set` the call returns `Result.Value = 0` and no error.
On a panic the state returned is the data only: the write lock taken before the
write is not released (there is no `defer`), so no later call on that instance
gets past its lock. -/
def Update (s : KVStateMachine) (entry : Entry) :
    KVStateMachine × Exec (Result × Option GoError) :=
  let r := unmarshalRequest entry.Cmd ⟨none⟩
  match r.2 with
  | some err => (s, Exec.returned (⟨0⟩, some err))
  | none =>
    match r.1.Set with
    | some set =>
      match s.data with
      | none => (s, Exec.panicked)
      | some m =>
        ({ data := some (mapPut set.Key set.Value m) }, Exec.returned (⟨entry.Index⟩, none))
    | none => (s, Exec.returned (⟨0⟩, none))

/-- Go `KVStateMachine.Lookup`: `""` for a query that is not a string, else
`s.data[key]`; the error is always nil.  This is the call on an instance whose
lock is free, that is on a state left by calls that returned; after an `Update`
that panicked the Go call blocks on `RLock` and returns nothing. -/
def Lookup (s : KVStateMachine) (query : Any) : Any × Option GoError :=
  match query with
  | Any.string key => (Any.string (mapIndex s.data key), none)
  | _ => (Any.string "", none)

/-- Go `KVStateMachine.SaveSnapshot` on a writer that accepts every write: the
bytes written, and the error returned. -/
def SaveSnapshot (s : KVStateMachine) : String × Option GoError :=
  (encodeMap s.data, none)

/-- Go `KVStateMachine.RecoverFromSnapshot` on a reader that delivers `src`: the
state after the call and the error returned. -/
def RecoverFromSnapshot (s : KVStateMachine) (src : String) :
    KVStateMachine × Option GoError :=
  let r := decodeMapStream src s.data
  ({ data := r.1 }, r.2)

/-! ## The program: the `/read` handler of `src/main.go` -/

/-- What an HTTP handler sent: status code and body, or it panicked. -/
inductive Response where
  | sent (status : Nat) (body : String)
  | panicked
  deriving DecidableEq

/-- Lines 126-135 of `main.go`: an error is a 500 (the message text is not
modelled), a nil value a 404, a string a 200 with the string as body; the type
assertion `val.(string)` panics on anything else. -/
def readResponse (val : Any) (err : Option GoError) : Response :=
  match err with
  | some _ => Response.sent 500 ""
  | none =>
    match val with
    | Any.nil => Response.sent 404 ""
    | Any.string v => Response.sent 200 v
    | Any.other => Response.panicked

/-- The `/read` handler.  The body is a JSON string, or else is taken raw as the
key.  `nh.SyncRead` is the consensus engine: once the read barrier has passed it
calls `Lookup` on the state machine and hands back what `Lookup` returned. -/
def readHandler (s : KVStateMachine) (body : String) : Response :=
  let r := unmarshalString body ""
  let key := match r.2 with
    | some _ => body
    | none => r.1
  let res := Lookup s (Any.string key)
  readResponse res.1 res.2

/-- Apply committed entries in order, as the engine does; a panic stops the
replica, later entries are not applied. -/
def applyEntries (s : KVStateMachine) : List Entry → KVStateMachine × Exec Unit
  | [] => (s, Exec.returned ())
  | e :: es =>
    match Update s e with
    | (s1, Exec.returned _) => applyEntries s1 es
    | (s1, Exec.panicked) => (s1, Exec.panicked)

/-- The wire form of a `Set` command, as the comment in `statemachine.go` gives
it. -/
def setPayload (k v : String) : String :=
  String.mk (['{'] ++ quote "Set" ++ [':', '{'] ++ quote "key" ++ [':'] ++ quote k ++
    [','] ++ quote "value" ++ [':'] ++ quote v ++ ['}', '}'])

/-- Writing the entries of `m`, first to last, into the map `m0`. -/
def putAll (m0 : Entries) (m : Entries) : Entries :=
  m.foldl (fun acc kv => mapPut kv.1 kv.2 acc) m0

/-- The representation invariant of `Entries`: the keys strictly increase. -/
def KeysIncreasing (m : Entries) : Prop :=
  m.Pairwise (fun a b => strLess a.1.data b.1.data = true)

instance (m : Entries) : Decidable (KeysIncreasing m) :=
  inferInstanceAs (Decidable (m.Pairwise _))

/-! # Theorems -/

/-! ## The string order and the map operations -/

theorem strLess_irrefl (a : List Char) : strLess a a = false := by
  induction a with
  | nil => rfl
  | cons c cs ih => simp [strLess, ih]

theorem strLess_asymm : ∀ (a b : List Char), strLess a b = true → strLess b a = false
  | _, [], h => by simp [strLess] at h
  | [], _ :: _, _ => by simp [strLess]
  | a :: as, b :: bs, h => by
    simp only [strLess] at h ⊢
    by_cases h1 : a.toNat < b.toNat
    · have h2 : ¬ b.toNat < a.toNat := by omega
      have h3 : ¬ b.toNat = a.toNat := by omega
      simp [h2, h3]
    · by_cases h2 : a.toNat = b.toNat
      · simp only [h1, h2, if_true, if_false] at h
        have h3 : ¬ b.toNat < a.toNat := by omega
        simp [h3, h2, strLess_asymm as bs (by simpa using h)]
      · simp [h1, h2] at h

theorem strLess_trans : ∀ (a b c : List Char),
    strLess a b = true → strLess b c = true → strLess a c = true
  | _, _, [], _, h2 => by simp [strLess] at h2
  | _, [], _ :: _, h1, _ => by simp [strLess] at h1
  | [], _ :: _, _ :: _, _, _ => by simp [strLess]
  | a :: as, b :: bs, c :: cs, h1, h2 => by
    simp only [strLess] at h1 h2 ⊢
    by_cases hab : a.toNat < b.toNat
    · by_cases hbc : b.toNat < c.toNat
      · have : a.toNat < c.toNat := by omega
        simp [this]
      · by_cases hbc2 : b.toNat = c.toNat
        · have : a.toNat < c.toNat := by omega
          simp [this]
        · simp [hbc, hbc2] at h2
    · by_cases hab2 : a.toNat = b.toNat
      · simp only [hab, hab2, if_true, if_false] at h1
        by_cases hbc : b.toNat < c.toNat
        · have : a.toNat < c.toNat := by omega
          simp [this]
        · by_cases hbc2 : b.toNat = c.toNat
          · simp only [hbc, hbc2, if_true, if_false] at h2
            have h3 : ¬ a.toNat < c.toNat := by omega
            have h4 : a.toNat = c.toNat := by omega
            rw [if_neg h3, if_pos h4]
            exact strLess_trans as bs cs (by simpa using h1) (by simpa using h2)
          · simp [hbc, hbc2] at h2
      · simp [hab, hab2] at h1

theorem char_eq_of_toNat_eq (a b : Char) (h : a.toNat = b.toNat) : a = b := by
  apply Char.ext
  apply UInt32.ext
  simpa [Char.toNat] using h

theorem strLess_total : ∀ (a b : List Char),
    strLess a b = false → a ≠ b → strLess b a = true
  | [], [], _, h => absurd rfl h
  | _ :: _, [], _, _ => by simp [strLess]
  | [], _ :: _, h, _ => by simp [strLess] at h
  | a :: as, b :: bs, h, hne => by
    simp only [strLess] at h ⊢
    by_cases h1 : a.toNat < b.toNat
    · simp [h1] at h
    · by_cases h2 : a.toNat = b.toNat
      · simp only [h1, h2, if_true, if_false] at h
        have hc : a = b := char_eq_of_toNat_eq a b h2
        have h3 : ¬ b.toNat < a.toNat := by omega
        have hne2 : as ≠ bs := by
          intro hh
          exact hne (by rw [hc, hh])
        rw [if_neg h3, if_pos h2.symm]
        exact strLess_total as bs (by simpa using h) hne2
      · have h3 : b.toNat < a.toNat := by omega
        simp [h3]

theorem mapGet_mapPut_same (k v : String) (m : Entries) :
    mapGet k (mapPut k v m) = some v := by
  induction m with
  | nil => simp [mapPut, mapGet]
  | cons hd t ih =>
    obtain ⟨k1, v1⟩ := hd
    simp only [mapPut]
    by_cases h1 : strLess k.data k1.data = true
    · simp [h1, mapGet]
    · by_cases h2 : k = k1
      · subst h2
        simp [strLess_irrefl, mapGet]
      · simp [h1, h2, mapGet, ih]

theorem mapGet_mapPut_other (k v k2 : String) (m : Entries) (h : k2 ≠ k) :
    mapGet k2 (mapPut k v m) = mapGet k2 m := by
  induction m with
  | nil => simp [mapPut, mapGet, h]
  | cons hd t ih =>
    obtain ⟨k1, v1⟩ := hd
    simp only [mapPut]
    by_cases h1 : strLess k.data k1.data = true
    · simp [h1, mapGet, h]
    · by_cases h2 : k = k1
      · subst h2
        simp [h1, mapGet, h]
      · simp only [h1, h2, if_false, mapGet]
        by_cases h3 : k2 = k1
        · simp [h3]
        · simp [h3, ih]

theorem mem_mapPut (k v : String) (m : Entries) (a : String × String)
    (h : a ∈ mapPut k v m) : a = (k, v) ∨ a ∈ m := by
  induction m with
  | nil => simpa [mapPut] using h
  | cons hd t ih =>
    obtain ⟨k1, v1⟩ := hd
    simp only [mapPut] at h
    by_cases h1 : strLess k.data k1.data = true
    · simp only [h1, if_true, List.mem_cons] at h
      rcases h with h | h | h
      · exact Or.inl h
      · exact Or.inr (by simp [h])
      · exact Or.inr (by simp [h])
    · by_cases h2 : k = k1
      · subst h2
        simp only [strLess_irrefl, if_true, if_false, List.mem_cons, Bool.false_eq_true] at h
        rcases h with h | h
        · exact Or.inl h
        · exact Or.inr (by simp [h])
      · simp only [h1, h2, if_false, List.mem_cons, Bool.false_eq_true] at h
        rcases h with h | h
        · exact Or.inr (by simp [h])
        · rcases ih h with h3 | h3
          · exact Or.inl h3
          · exact Or.inr (by simp [h3])

theorem mapPut_keysIncreasing (k v : String) (m : Entries) (h : KeysIncreasing m) :
    KeysIncreasing (mapPut k v m) := by
  unfold KeysIncreasing at h ⊢
  induction m with
  | nil => simp [mapPut]
  | cons hd t ih =>
    obtain ⟨k1, v1⟩ := hd
    rw [List.pairwise_cons] at h
    obtain ⟨hhd, ht⟩ := h
    simp only [mapPut]
    by_cases h1 : strLess k.data k1.data = true
    · simp only [h1, if_true]
      refine List.Pairwise.cons ?_ (List.Pairwise.cons hhd ht)
      intro a ha
      rcases List.mem_cons.mp ha with ha | ha
      · rw [ha]; exact h1
      · exact strLess_trans _ _ _ h1 (hhd a ha)
    · by_cases h2 : k = k1
      · subst h2
        simp only [strLess_irrefl, if_true, if_false, Bool.false_eq_true]
        exact List.Pairwise.cons hhd ht
      · simp only [h1, h2, if_false]
        refine List.Pairwise.cons ?_ (ih ht)
        intro a ha
        rcases mem_mapPut k v t a ha with ha | ha
        · rw [ha]
          have hne : k1.data ≠ k.data := by
            intro hh
            exact h2 (String.ext hh.symm)
          have hf : strLess k.data k1.data = false := by simpa using h1
          exact strLess_total k.data k1.data hf (fun hh => hne hh.symm)
        · exact hhd a ha

theorem mapPut_snoc (k v : String) (m : Entries)
    (h : ∀ a ∈ m, strLess a.1.data k.data = true) : mapPut k v m = m ++ [(k, v)] := by
  induction m with
  | nil => rfl
  | cons hd t ih =>
    obtain ⟨k1, v1⟩ := hd
    have hk : strLess k1.data k.data = true := h (k1, v1) (List.mem_cons_self _ _)
    have h1 : strLess k.data k1.data = false := strLess_asymm _ _ hk
    have h2 : k ≠ k1 := by
      intro hh
      rw [hh, strLess_irrefl] at hk
      exact Bool.noConfusion hk
    simp only [mapPut, h1, h2, if_false, List.cons_append, Bool.false_eq_true]
    rw [ih (fun a ha => h a (List.mem_cons_of_mem _ ha))]

theorem putAll_sorted (m : Entries) : ∀ (acc : Entries),
    KeysIncreasing (acc ++ m) → putAll acc m = acc ++ m := by
  induction m with
  | nil => intro acc _; simp [putAll]
  | cons hd t ih =>
    intro acc h
    obtain ⟨k1, v1⟩ := hd
    have hsnoc : mapPut k1 v1 acc = acc ++ [(k1, v1)] := by
      apply mapPut_snoc
      intro a ha
      unfold KeysIncreasing at h
      rw [List.pairwise_append] at h
      exact h.2.2 a ha (k1, v1) (List.mem_cons_self _ _)
    have h2 : KeysIncreasing ((acc ++ [(k1, v1)]) ++ t) := by
      simpa using h
    have := ih (acc ++ [(k1, v1)]) h2
    simp only [putAll, List.foldl_cons] at this ⊢
    rw [hsnoc, this]
    simp

theorem mapGet_none_of_less (k : String) (m : Entries)
    (h : ∀ a ∈ m, strLess k.data a.1.data = true) : mapGet k m = none := by
  induction m with
  | nil => rfl
  | cons hd t ih =>
    obtain ⟨k1, v1⟩ := hd
    have hk : strLess k.data k1.data = true := h (k1, v1) (List.mem_cons_self _ _)
    have h2 : k ≠ k1 := by
      intro hh
      rw [hh, strLess_irrefl] at hk
      exact Bool.noConfusion hk
    simp only [mapGet, h2, if_false]
    exact ih (fun a ha => h a (List.mem_cons_of_mem _ ha))

theorem mapGet_putAll (k : String) (m : Entries) : ∀ (m0 : Entries), KeysIncreasing m →
    mapGet k (putAll m0 m) = (match mapGet k m with
      | some v => some v
      | none => mapGet k m0) := by
  induction m with
  | nil => intro m0 _; simp [putAll, mapGet]
  | cons hd t ih =>
    intro m0 h
    obtain ⟨k1, v1⟩ := hd
    unfold KeysIncreasing at h
    rw [List.pairwise_cons] at h
    have := ih (mapPut k1 v1 m0) h.2
    simp only [putAll, List.foldl_cons] at this ⊢
    rw [this]
    by_cases hk : k = k1
    · subst hk
      rw [mapGet_none_of_less k t h.1]
      simp [mapGet, mapGet_mapPut_same]
    · simp only [mapGet, hk, if_false]
      rw [mapGet_mapPut_other k1 v1 k m0 hk]

/-! ## The scanner reads back what the encoder writes -/

theorem hex4_hexDigit : ∀ n, n < 64 →
    hex4 '0' '0' (hexDigit (n / 16)) (hexDigit (n % 16)) = some n := by
  decide

theorem surrogatePair_small (n : Nat) (us : List StrUnit) (h : n < 0xD800) :
    surrogatePair n us = none := by
  cases us with
  | nil => rfl
  | cons u t =>
    cases u with
    | chr c => rfl
    | esc m =>
      have : ¬ (0xD800 ≤ n ∧ n < 0xDC00 ∧ 0xDC00 ≤ m ∧ m < 0xE000) := by omega
      simp [surrogatePair, this]

theorem combineFrom_esc_small (n : Nat) (us : List StrUnit) (h : n < 0xD800) :
    combineFrom false (StrUnit.esc n :: us) = Char.ofNat n :: combineFrom false us := by
  have hs : isSurrogate n = false := by
    simp only [isSurrogate, decide_eq_false_iff_not]
    omega
  simp [combineFrom, surrogatePair_small n us h, hs]

theorem scan_short_escape (c e : Char) (he : e ≠ 'u') (hs : simpleEscape e = some c)
    (rest : List Char) :
    scanString ('\\' :: e :: rest) = (match scanString rest with
      | none => none
      | some (us, r) => some (StrUnit.chr c :: us, r)) := by
  rw [scanString.eq_def]
  simp [he, hs]

theorem scan_unicode_escape (a b c d : Char) (n : Nat) (hn : hex4 a b c d = some n)
    (rest : List Char) :
    scanString ('\\' :: 'u' :: a :: b :: c :: d :: rest) = (match scanString rest with
      | none => none
      | some (us, r) => some (StrUnit.esc n :: us, r)) := by
  rw [scanString.eq_def]
  simp [hn]

theorem scan_raw_char (c : Char) (h1 : c ≠ '"') (h2 : c ≠ '\\') (h3 : ¬ c.toNat < 32)
    (rest : List Char) :
    scanString (c :: rest) = (match scanString rest with
      | none => none
      | some (us, r) => some (StrUnit.chr c :: us, r)) := by
  rw [scanString.eq_def]
  simp [h1, h2, h3]

/-- Every character is read back from its escape: the scanner yields one item for
it, and that item decodes to the character. -/
theorem scan_escapeChar (c : Char) : ∃ u : StrUnit,
    (∀ rest, scanString (escapeChar c ++ rest) = (match scanString rest with
      | none => none
      | some (us, r) => some (u :: us, r))) ∧
    (∀ us, combineFrom false (u :: us) = c :: combineFrom false us) := by
  unfold escapeChar
  by_cases h1 : c = '"'
  · refine ⟨StrUnit.chr c, fun rest => ?_, fun us => rfl⟩
    simp only [h1, if_true]
    exact scan_short_escape '"' '"' (by decide) (by decide) rest
  by_cases h2 : c = '\\'
  · refine ⟨StrUnit.chr c, fun rest => ?_, fun us => rfl⟩
    simp only [h2, if_true]
    exact scan_short_escape '\\' '\\' (by decide) (by decide) rest
  by_cases h3 : c.toNat = 8
  · have hc : c = Char.ofNat 8 := char_eq_of_toNat_eq _ _ (by rw [h3]; rfl)
    refine ⟨StrUnit.chr c, fun rest => ?_, fun us => rfl⟩
    simp only [h1, h2, h3, if_true, if_false]
    rw [hc]
    exact scan_short_escape (Char.ofNat 8) 'b' (by decide) (by decide) rest
  by_cases h4 : c.toNat = 12
  · have hc : c = Char.ofNat 12 := char_eq_of_toNat_eq _ _ (by rw [h4]; rfl)
    refine ⟨StrUnit.chr c, fun rest => ?_, fun us => rfl⟩
    simp only [h1, h2, h3, h4, if_true, if_false]
    rw [hc]
    exact scan_short_escape (Char.ofNat 12) 'f' (by decide) (by decide) rest
  by_cases h5 : c = '\n'
  · refine ⟨StrUnit.chr c, fun rest => ?_, fun us => rfl⟩
    simp only [h1, h2, h3, h4, h5, if_true, if_false]
    exact scan_short_escape '\n' 'n' (by decide) (by decide) rest
  by_cases h6 : c = '\r'
  · refine ⟨StrUnit.chr c, fun rest => ?_, fun us => rfl⟩
    simp only [h1, h2, h3, h4, h5, h6, if_true, if_false]
    exact scan_short_escape '\r' 'r' (by decide) (by decide) rest
  by_cases h7 : c = '\t'
  · refine ⟨StrUnit.chr c, fun rest => ?_, fun us => rfl⟩
    simp only [h1, h2, h3, h4, h5, h6, h7, if_true, if_false]
    exact scan_short_escape '\t' 't' (by decide) (by decide) rest
  by_cases h8 : c.toNat < 32 ∨ c = '<' ∨ c = '>' ∨ c = '&'
  · have hn : c.toNat < 64 := by
      rcases h8 with h | h | h | h
      · omega
      · rw [h]; decide
      · rw [h]; decide
      · rw [h]; decide
    refine ⟨StrUnit.esc c.toNat, fun rest => ?_, fun us => ?_⟩
    · simp only [h1, h2, h3, h4, h5, h6, h7, h8, if_true, if_false]
      exact scan_unicode_escape _ _ _ _ c.toNat (hex4_hexDigit c.toNat hn) rest
    · rw [combineFrom_esc_small c.toNat us (by omega), Char.ofNat_toNat]
  by_cases h9 : c.toNat = 0x2028
  · refine ⟨StrUnit.esc c.toNat, fun rest => ?_, fun us => ?_⟩
    · rw [if_neg h1, if_neg h2, if_neg h3, if_neg h4, if_neg h5, if_neg h6, if_neg h7,
        if_neg h8, if_pos h9]
      exact scan_unicode_escape '2' '0' '2' '8' c.toNat (by rw [h9]; decide) rest
    · rw [combineFrom_esc_small c.toNat us (by omega), Char.ofNat_toNat]
  by_cases h10 : c.toNat = 0x2029
  · refine ⟨StrUnit.esc c.toNat, fun rest => ?_, fun us => ?_⟩
    · rw [if_neg h1, if_neg h2, if_neg h3, if_neg h4, if_neg h5, if_neg h6, if_neg h7,
        if_neg h8, if_neg h9, if_pos h10]
      exact scan_unicode_escape '2' '0' '2' '9' c.toNat (by rw [h10]; decide) rest
    · rw [combineFrom_esc_small c.toNat us (by omega), Char.ofNat_toNat]
  · refine ⟨StrUnit.chr c, fun rest => ?_, fun us => rfl⟩
    simp only [h1, h2, h3, h4, h5, h6, h7, h8, h9, h10, if_false]
    exact scan_raw_char c h1 h2 (fun h => h8 (Or.inl h)) rest

/-- A string literal written by the encoder is read back as the same string. -/
theorem scan_escapeChars (cs rest : List Char) : ∃ us : List StrUnit,
    scanString (escapeChars cs ++ '"' :: rest) = some (us, rest) ∧
    combineFrom false us = cs := by
  induction cs with
  | nil =>
    refine ⟨[], ?_, rfl⟩
    rw [escapeChars, List.nil_append, scanString.eq_def]
    simp
  | cons c t ih =>
    obtain ⟨us, h1, h2⟩ := ih
    obtain ⟨u, hu1, hu2⟩ := scan_escapeChar c
    refine ⟨u :: us, ?_, ?_⟩
    · simp only [escapeChars, List.append_assoc]
      rw [hu1, h1]
    · rw [hu2, h2]

theorem scan_quote (s : String) (rest : List Char) : ∃ us : List StrUnit,
    scanString ((quote s).tail ++ rest) = some (us, rest) ∧
    String.mk (combine us) = s := by
  obtain ⟨us, h1, h2⟩ := scan_escapeChars s.data rest
  refine ⟨us, ?_, ?_⟩
  · simpa [quote] using h1
  · simp [combine, h2]

theorem skipSpace_quote (c : Char) (cs : List Char) (h : isSpace c = false) :
    skipSpace (c :: cs) = c :: cs := by
  simp [skipSpace, h]

theorem parseValue_quote (s : String) (fuel depth : Nat) (rest : List Char) :
    parseValue (fuel + 1) depth (quote s ++ rest) = some (JVal.str s, rest) := by
  obtain ⟨us, h1, h2⟩ := scan_quote s rest
  have hq : quote s ++ rest = '"' :: ((quote s).tail ++ rest) := by simp [quote]
  rw [hq, parseValue, skipSpace_quote '"' _ (by decide)]
  simp [h1, h2]

theorem parseMembers_member (t : Entries) : ∀ (k v : String) (fuel depth : Nat)
    (rest : List Char), t.length + 1 < fuel →
    parseMembers fuel depth (quote k ++ (':' :: (quote v ++ (encodeTail t ++ rest))))
      = some ((k, JVal.str v) :: t.map (fun kv => (kv.1, JVal.str kv.2)), rest) := by
  induction t with
  | nil =>
    intro k v fuel depth rest hf
    obtain ⟨g, rfl⟩ : ∃ g, fuel = g + 1 + 1 := ⟨fuel - 2, by simp at hf; omega⟩
    obtain ⟨us, h1, h2⟩ := scan_quote k (':' :: (quote v ++ (encodeTail [] ++ rest)))
    have hq : quote k ++ (':' :: (quote v ++ (encodeTail [] ++ rest)))
        = '"' :: ((quote k).tail ++ (':' :: (quote v ++ (encodeTail [] ++ rest)))) := by
      simp [quote]
    rw [hq, parseMembers, skipSpace_quote '"' _ (by decide)]
    simp only [if_true, h1, skipSpace_quote ':' _ (by decide), parseValue_quote, h2]
    simp [encodeTail, skipSpace_quote '}' _ (by decide)]
  | cons hd t2 ih =>
    intro k v fuel depth rest hf
    obtain ⟨k2, v2⟩ := hd
    obtain ⟨g, rfl⟩ : ∃ g, fuel = g + 1 + 1 := ⟨fuel - 2, by simp at hf; omega⟩
    obtain ⟨us, h1, h2⟩ := scan_quote k (':' :: (quote v ++ (encodeTail ((k2, v2) :: t2) ++ rest)))
    have hq : quote k ++ (':' :: (quote v ++ (encodeTail ((k2, v2) :: t2) ++ rest)))
        = '"' :: ((quote k).tail ++ (':' :: (quote v ++ (encodeTail ((k2, v2) :: t2) ++ rest)))) := by
      simp [quote]
    rw [hq, parseMembers, skipSpace_quote '"' _ (by decide)]
    simp only [if_true, h1, skipSpace_quote ':' _ (by decide), parseValue_quote, h2]
    have hih := ih k2 v2 (g + 1) depth rest (by simp at hf; omega)
    have ht : encodeTail ((k2, v2) :: t2) ++ rest
        = ',' :: (quote k2 ++ (':' :: (quote v2 ++ (encodeTail t2 ++ rest)))) := by
      simp [encodeTail]
    rw [ht, skipSpace_quote ',' _ (by decide)]
    simp [hih]

theorem parseValue_encodeMembers (m : Entries) (fuel depth : Nat) (rest : List Char)
    (hf : m.length + 1 < fuel) (hd : depth < maxNestingDepth) :
    parseValue fuel depth ('{' :: (encodeMembers m ++ rest))
      = some (JVal.obj (m.map (fun kv => (kv.1, JVal.str kv.2))), rest) := by
  obtain ⟨f, rfl⟩ : ∃ f, fuel = f + 1 := ⟨fuel - 1, by omega⟩
  rw [parseValue, skipSpace_quote '{' _ (by decide)]
  cases m with
  | nil =>
    simp [hd, encodeMembers, skipSpace_quote '}' _ (by decide)]
  | cons hd2 t =>
    obtain ⟨k, v⟩ := hd2
    have hq : encodeMembers ((k, v) :: t) ++ rest
        = '"' :: ((quote k).tail ++ (':' :: (quote v ++ (encodeTail t ++ rest)))) := by
      simp [encodeMembers, quote]
    have hm := parseMembers_member t k v f (depth + 1) rest (by simp at hf; omega)
    have hq2 : quote k ++ (':' :: (quote v ++ (encodeTail t ++ rest)))
        = '"' :: ((quote k).tail ++ (':' :: (quote v ++ (encodeTail t ++ rest)))) := by
      simp [quote]
    rw [hq2] at hm
    rw [hq]
    have hsp := skipSpace_quote '"' ((quote k).tail ++ (':' :: (quote v ++ (encodeTail t ++ rest))))
      (by decide)
    simp [hd, hsp, hm]

theorem length_encodeTail (t : Entries) : t.length ≤ (encodeTail t).length := by
  induction t with
  | nil => simp
  | cons hd t ih =>
    obtain ⟨k, v⟩ := hd
    simp only [encodeTail, List.length_cons, List.length_append]
    omega

theorem length_encodeMembers (m : Entries) : m.length ≤ (encodeMembers m).length := by
  cases m with
  | nil => simp
  | cons hd t =>
    obtain ⟨k, v⟩ := hd
    have := length_encodeTail t
    simp only [encodeMembers, List.length_cons, List.length_append]
    omega

/-- The scanner of `Decode` reads the encoding of a non-nil map back as the object
with the same members. -/
theorem scanFirst_encodeMap (m : Entries) :
    scanFirst (encodeMap (some m)) = some (JVal.obj (m.map (fun kv => (kv.1, JVal.str kv.2)))) := by
  have h := parseValue_encodeMembers m ((encodeMembers m ++ ['\n']).length + 1 + 1) 0 ['\n']
    (by have := length_encodeMembers m; simp only [List.length_append]; omega)
    (by decide)
  simp only [scanFirst, encodeMap, List.length_cons]
  rw [h]

theorem foldl_decodeMapMember (m : Entries) : ∀ (acc : Entries) (e : Option GoError),
    (m.map (fun kv => (kv.1, JVal.str kv.2))).foldl decodeMapMember (acc, e)
      = (putAll acc m, e) := by
  induction m with
  | nil => intro acc e; rfl
  | cons hd t ih =>
    intro acc e
    simp only [List.map_cons, List.foldl_cons, decodeMapMember, putAll]
    rw [ih]
    rfl

/-- Decoding the encoding of a non-nil map writes its entries, in order, into the
map that is there. -/
theorem decodeMapStream_encodeMap (m : Entries) (data : Option Entries) :
    decodeMapStream (encodeMap (some m)) data = (some (putAll (data.getD []) m), none) := by
  simp only [decodeMapStream, scanFirst_encodeMap, decodeMap, foldl_decodeMapMember]

/-! ## The wire form of a `Set` command -/

theorem setPayload_data (k v : String) :
    (setPayload k v).data = '{' :: ('"' :: ((quote "Set").tail ++ (':' ::
      ('{' :: (encodeMembers [("key", k), ("value", v)] ++ ['}']))))) := by
  simp [setPayload, encodeMembers, encodeTail, quote]

theorem scanWhole_setPayload (k v : String) :
    scanWhole (setPayload k v)
      = some (JVal.obj [("Set", JVal.obj [("key", JVal.str k), ("value", JVal.str v)])]) := by
  obtain ⟨us, h1, h2⟩ := scan_quote "Set"
    (':' :: ('{' :: (encodeMembers [("key", k), ("value", v)] ++ ['}'])))
  have hlen : ∃ g, (setPayload k v).data.length + 1 = g + 4 + 1 + 1 := by
    refine ⟨(setPayload k v).data.length - 5, ?_⟩
    rw [setPayload_data]
    simp only [List.length_cons, List.length_append, encodeMembers, encodeTail, quote]
    omega
  obtain ⟨g, hg⟩ := hlen
  have hinner := parseValue_encodeMembers [("key", k), ("value", v)] (g + 4) 1 ['}']
    (by simp) (by decide)
  have hsp1 := skipSpace_quote '{' ('"' :: ((quote "Set").tail ++ (':' ::
      ('{' :: (encodeMembers [("key", k), ("value", v)] ++ ['}']))))) (by decide)
  have hsp2 := skipSpace_quote '"' ((quote "Set").tail ++ (':' ::
      ('{' :: (encodeMembers [("key", k), ("value", v)] ++ ['}'])))) (by decide)
  have hsp3 := skipSpace_quote ':'
      ('{' :: (encodeMembers [("key", k), ("value", v)] ++ ['}'])) (by decide)
  have hsp4 := skipSpace_quote '}' [] (by decide)
  have hmem : parseMembers (g + 4 + 1) 1 ('"' :: ((quote "Set").tail ++ (':' ::
      ('{' :: (encodeMembers [("key", k), ("value", v)] ++ ['}'])))))
      = some ([("Set", JVal.obj [("key", JVal.str k), ("value", JVal.str v)])], []) := by
    rw [parseMembers, hsp2]
    simp only [if_true, h1, hsp3, hinner, hsp4, h2]
    simp
  simp only [scanWhole]
  rw [hg, setPayload_data, parseValue, hsp1]
  have hd0 : (0 : Nat) < maxNestingDepth := by decide
  have hsp5 : skipSpace [] = [] := rfl
  simp [hd0, hsp2, hmem, hsp5]

theorem unmarshalRequest_setPayload (k v : String) :
    unmarshalRequest (setPayload k v) ⟨none⟩ = (⟨some ⟨k, v⟩⟩, none) := by
  have h1 : fieldMatches "Set" "Set" = true := by decide
  have h2 : fieldMatches "key" "key" = true := by decide
  have h3 : fieldMatches "key" "value" = false := by decide
  have h4 : fieldMatches "value" "value" = true := by decide
  simp [unmarshalRequest, scanWhole_setPayload, decodeRequest, decodeRequestMember,
    decodeSetPtr, decodeSetMember, h1, h2, h3, h4]

/-- On a state whose map is not nil, a `Set` command is applied: the slot is
written and the result carries the log index. -/
theorem Update_setPayload_some (m : Entries) (i : Nat) (k v : String) :
    Update ⟨some m⟩ ⟨i, setPayload k v⟩
      = (⟨some (mapPut k v m)⟩, Exec.returned (⟨i⟩, none)) := by
  simp [Update, unmarshalRequest_setPayload]

/-- On the nil map, a `Set` command panics. -/
theorem Update_setPayload_nil (i : Nat) (k v : String) :
    Update ⟨none⟩ ⟨i, setPayload k v⟩ = (⟨none⟩, Exec.panicked) := by
  simp [Update, unmarshalRequest_setPayload]

/-! ## `Update`: the four ways a call ends -/

theorem Update_of_error (s : KVStateMachine) (e : Entry) (err : GoError)
    (h : (unmarshalRequest e.Cmd ⟨none⟩).2 = some err) :
    Update s e = (s, Exec.returned (⟨0⟩, some err)) := by
  simp [Update, h]

theorem Update_of_no_set (s : KVStateMachine) (e : Entry)
    (h1 : (unmarshalRequest e.Cmd ⟨none⟩).2 = none)
    (h2 : (unmarshalRequest e.Cmd ⟨none⟩).1.Set = none) :
    Update s e = (s, Exec.returned (⟨0⟩, none)) := by
  simp [Update, h1, h2]

theorem Update_of_set (m : Entries) (e : Entry) (set : SetRequest)
    (h1 : (unmarshalRequest e.Cmd ⟨none⟩).2 = none)
    (h2 : (unmarshalRequest e.Cmd ⟨none⟩).1.Set = some set) :
    Update ⟨some m⟩ e
      = (⟨some (mapPut set.Key set.Value m)⟩, Exec.returned (⟨e.Index⟩, none)) := by
  simp [Update, h1, h2]

theorem Update_of_set_nil (e : Entry) (set : SetRequest)
    (h1 : (unmarshalRequest e.Cmd ⟨none⟩).2 = none)
    (h2 : (unmarshalRequest e.Cmd ⟨none⟩).1.Set = some set) :
    Update ⟨none⟩ e = (⟨none⟩, Exec.panicked) := by
  simp [Update, h1, h2]

/-- The state after `Update` is a function of the state and of the payload: the
log index plays no part. -/
theorem Update_state_index (s : KVStateMachine) (i j : Nat) (cmd : String) :
    (Update s ⟨i, cmd⟩).1 = (Update s ⟨j, cmd⟩).1 := by
  simp only [Update]
  cases (unmarshalRequest cmd ⟨none⟩).2 with
  | some err => rfl
  | none =>
    cases (unmarshalRequest cmd ⟨none⟩).1.Set with
    | none => rfl
    | some set =>
      cases s.data with
      | none => rfl
      | some m => rfl

/-- On a state with a non-nil, ordered map, `Update` returns and leaves such a
state. -/
theorem Update_wellFormed (m : Entries) (hm : KeysIncreasing m) (e : Entry) :
    ∃ m1 res, Update ⟨some m⟩ e = (⟨some m1⟩, Exec.returned res) ∧ KeysIncreasing m1 := by
  cases h1 : (unmarshalRequest e.Cmd ⟨none⟩).2 with
  | some err => exact ⟨m, _, Update_of_error _ e err h1, hm⟩
  | none =>
    cases h2 : (unmarshalRequest e.Cmd ⟨none⟩).1.Set with
    | none => exact ⟨m, _, Update_of_no_set _ e h1 h2, hm⟩
    | some set =>
      exact ⟨_, _, Update_of_set m e set h1 h2, mapPut_keysIncreasing _ _ _ hm⟩

/-- Applying entries to a state with a non-nil, ordered map never panics and
leaves such a state. -/
theorem applyEntries_wellFormed (es : List Entry) : ∀ (m : Entries), KeysIncreasing m →
    ∃ m1, applyEntries ⟨some m⟩ es = (⟨some m1⟩, Exec.returned ()) ∧ KeysIncreasing m1 := by
  induction es with
  | nil => intro m hm; exact ⟨m, rfl, hm⟩
  | cons e t ih =>
    intro m hm
    obtain ⟨m1, res, h1, h2⟩ := Update_wellFormed m hm e
    obtain ⟨m2, h3, h4⟩ := ih m1 h2
    refine ⟨m2, ?_, h4⟩
    simp only [applyEntries, h1]
    exact h3

theorem applyEntries_new (c n : Nat) (es : List Entry) :
    ∃ m1, applyEntries (NewKVStateMachine c n) es = (⟨some m1⟩, Exec.returned ()) ∧
      KeysIncreasing m1 :=
  applyEntries_wellFormed es [] List.Pairwise.nil

/-- Restoring the snapshot of a state with an ordered map into a state with an
empty map gives the state back. -/
theorem recover_save_wellFormed (m : Entries) (hm : KeysIncreasing m) :
    RecoverFromSnapshot ⟨some []⟩ (SaveSnapshot ⟨some m⟩).1 = (⟨some m⟩, none) := by
  simp only [RecoverFromSnapshot, SaveSnapshot, decodeMapStream_encodeMap, Option.getD_some]
  rw [putAll_sorted m [] (by simpa using hm)]
  rfl

/-! ## Reads -/

/-- `Lookup` never returns nil: whatever the state and the query, the value is a
string and the error is nil. -/
theorem Lookup_is_string (s : KVStateMachine) (query : Any) :
    ∃ v, Lookup s query = (Any.string v, none) := by
  cases query with
  | nil => exact ⟨"", rfl⟩
  | string key => exact ⟨mapIndex s.data key, rfl⟩
  | other => exact ⟨"", rfl⟩

/-- The `/read` handler has no reachable 404: every request is answered 200. -/
theorem readHandler_always_200 (s : KVStateMachine) (body : String) :
    ∃ v, readHandler s body = Response.sent 200 v := by
  simp only [readHandler, Lookup, readResponse]
  exact ⟨_, rfl⟩

/-- C1 (code defect).  On a fresh state machine, `Lookup` of the never written key
`missing` returns the string `""` and not nil, so the `/read` handler answers 200
with an empty body: the same answer as for the key `k` after `Set{k, ""}`. -/
theorem lookup_never_written_is_empty_string :
    Lookup (NewKVStateMachine 1 1) (Any.string "missing") = (Any.string "", none) ∧
    readHandler (NewKVStateMachine 1 1) "\"missing\"" = Response.sent 200 "" ∧
    (Update (NewKVStateMachine 1 1) ⟨1, "\x7b\"Set\":\x7b\"key\":\"k\",\"value\":\"\"\x7d\x7d"⟩).1
      = ⟨some [("k", "")]⟩ ∧
    Lookup ⟨some [("k", "")]⟩ (Any.string "k") = (Any.string "", none) ∧
    readHandler ⟨some [("k", "")]⟩ "\"k\"" = Response.sent 200 "" := by
  decide

/-! ## The nil map -/

/-- C9 (code defect).  `RecoverFromSnapshot` on the stream `null` returns no error
and leaves the map nil; the next `Update` with a well-formed `Set` command panics
on the write into the nil map. -/
theorem recover_null_makes_map_nil :
    RecoverFromSnapshot (NewKVStateMachine 1 1) "null" = (⟨none⟩, none) ∧
    Update (RecoverFromSnapshot (NewKVStateMachine 1 1) "null").1
        ⟨1, "\x7b\"Set\":\x7b\"key\":\"a\",\"value\":\"b\"\x7d\x7d"⟩
      = (⟨none⟩, Exec.panicked) := by
  decide

/-- C6 (code defect, the one of C9).  In the state with the nil map, `Update` with
the well-formed payload `Set{a, b}` at log index 7 does not return a `Result`
with `Value = 7`: it panics on the write into the nil map. -/
theorem set_on_nil_map_panics :
    Update ⟨none⟩ ⟨7, "\x7b\"Set\":\x7b\"key\":\"a\",\"value\":\"b\"\x7d\x7d"⟩
      = (⟨none⟩, Exec.panicked) := by
  decide

/-- C7 (code defect, the one of C9).  In the state with the nil map, applying
`Set{a, 1}` and then `Set{a, 2}` panics at the first command: the second is never
applied and the map stays nil. -/
theorem overwrite_on_nil_map_panics :
    applyEntries ⟨none⟩
        [⟨1, "\x7b\"Set\":\x7b\"key\":\"a\",\"value\":\"1\"\x7d\x7d"⟩,
         ⟨2, "\x7b\"Set\":\x7b\"key\":\"a\",\"value\":\"2\"\x7d\x7d"⟩]
      = (⟨none⟩, Exec.panicked) := by
  decide

/-! ## `Set` on a state whose map is not nil -/

/-- On every state with a non-nil map, for every key, value and log index,
`Update` with the wire form of `Set{k, v}` returns no error and a `Result` whose
`Value` is the index, and `Lookup(k)` afterwards returns `v`. -/
theorem set_then_lookup (m : Entries) (i : Nat) (k v : String) :
    (Update ⟨some m⟩ ⟨i, setPayload k v⟩).2 = Exec.returned (⟨i⟩, none) ∧
    Lookup (Update ⟨some m⟩ ⟨i, setPayload k v⟩).1 (Any.string k) = (Any.string v, none) := by
  rw [Update_setPayload_some]
  simp [Lookup, mapIndex, mapGet_mapPut_same]

theorem mapPut_idem (k v w : String) (m : Entries) :
    mapPut k v (mapPut k w m) = mapPut k v m := by
  induction m with
  | nil => simp [mapPut, strLess_irrefl]
  | cons hd t ih =>
    obtain ⟨k1, v1⟩ := hd
    by_cases h1 : strLess k.data k1.data = true
    · simp [mapPut, h1, strLess_irrefl]
    · by_cases h2 : k = k1
      · subst h2
        simp [mapPut, strLess_irrefl]
      · simp [mapPut, h1, h2, ih]

/-- On every state with a non-nil map, `Set{k, v1}` then `Set{k, v2}` leaves
`Lookup(k)` equal to `v2`, and `Set{k, v2}` once more, at any log index, leaves
the state as it was. -/
theorem set_overwrite_idempotent (m : Entries) (i1 i2 i3 : Nat) (k v1 v2 : String) :
    Lookup (applyEntries ⟨some m⟩ [⟨i1, setPayload k v1⟩, ⟨i2, setPayload k v2⟩]).1
      (Any.string k) = (Any.string v2, none) ∧
    (Update (applyEntries ⟨some m⟩ [⟨i1, setPayload k v1⟩, ⟨i2, setPayload k v2⟩]).1
      ⟨i3, setPayload k v2⟩).1
      = (applyEntries ⟨some m⟩ [⟨i1, setPayload k v1⟩, ⟨i2, setPayload k v2⟩]).1 := by
  simp only [applyEntries, Update_setPayload_some, mapPut_idem]
  simp [Lookup, mapIndex, mapGet_mapPut_same]

/-! ## Snapshots -/

/-- C4.  For every state reached from `NewKVStateMachine` by `Update` calls,
`SaveSnapshot` succeeds and `RecoverFromSnapshot` of the bytes it wrote, on a
freshly created instance, succeeds and yields that same state: the same
(key, value) pairs. -/
theorem snapshot_roundtrip (c n c2 n2 : Nat) (es : List Entry) :
    (SaveSnapshot (applyEntries (NewKVStateMachine c n) es).1).2 = none ∧
    RecoverFromSnapshot (NewKVStateMachine c2 n2)
        (SaveSnapshot (applyEntries (NewKVStateMachine c n) es).1).1
      = ((applyEntries (NewKVStateMachine c n) es).1, none) := by
  obtain ⟨m1, h1, h2⟩ := applyEntries_new c n es
  rw [h1]
  exact ⟨rfl, recover_save_wellFormed m1 h2⟩

/-- C2, as the claim states it, fails: the state holds `old`, the stream is the
encoding of the mapping with the single key `new`; `RecoverFromSnapshot` returns
no error and `old` is still present. -/
theorem recover_keeps_old_keys :
    encodeMap (some [("new", "2")]) = "\x7b\"new\":\"2\"\x7d\n" ∧
    RecoverFromSnapshot ⟨some [("old", "1")]⟩ "\x7b\"new\":\"2\"\x7d\n"
      = (⟨some [("new", "2"), ("old", "1")]⟩, none) ∧
    Lookup (RecoverFromSnapshot ⟨some [("old", "1")]⟩ "\x7b\"new\":\"2\"\x7d\n").1
      (Any.string "old") = (Any.string "1", none) := by
  decide

/-- C2, amended.  For every state `s` and every mapping `M`, `RecoverFromSnapshot`
on the JSON encoding of `M` returns no error and leaves a non-nil map in which
every key of `M` has the value `M` gives it and every other key has what it had
in `s`: the entries are merged into the current map.  When the current map is
empty or nil the map afterwards is exactly `M`. -/
theorem recover_merges (s : KVStateMachine) (M : Entries) (hM : KeysIncreasing M) :
    ∃ m1, RecoverFromSnapshot s (encodeMap (some M)) = (⟨some m1⟩, none) ∧
      (∀ k, mapGet k m1 = (match mapGet k M with
        | some v => some v
        | none => mapGet k (s.data.getD []))) ∧
      (s.data.getD [] = [] → m1 = M) := by
  refine ⟨putAll (s.data.getD []) M, ?_, ?_, ?_⟩
  · simp only [RecoverFromSnapshot, decodeMapStream_encodeMap]
  · intro k
    exact mapGet_putAll k M _ hM
  · intro h
    rw [h]
    simpa using putAll_sorted M [] (by simpa using hM)

/-- Witness of `recover_merges`: a state holding `old`, a mapping with the keys
`a` and `b`. -/
theorem recover_merges_witness :
    KeysIncreasing [("a", "1"), ("b", "2")] ∧
    ∃ m1, RecoverFromSnapshot ⟨some [("old", "1")]⟩ (encodeMap (some [("a", "1"), ("b", "2")]))
        = (⟨some m1⟩, none) ∧
      (∀ k, mapGet k m1 = (match mapGet k [("a", "1"), ("b", "2")] with
        | some v => some v
        | none => mapGet k ((KVStateMachine.mk (some [("old", "1")])).data.getD []))) ∧
      ((KVStateMachine.mk (some [("old", "1")])).data.getD [] = [] → m1 = [("a", "1"), ("b", "2")]) :=
  ⟨by decide, recover_merges ⟨some [("old", "1")]⟩ [("a", "1"), ("b", "2")] (by decide)⟩

/-- C3, as the claim states it, fails: the stream is a JSON object whose member `b`
is a number.  `RecoverFromSnapshot` returns a type error, and the map has changed:
`a` was written and `b` was written with the empty string. -/
theorem recover_error_writes_members :
    RecoverFromSnapshot ⟨some [("z", "1")]⟩ "\x7b\"a\":\"x\",\"b\":1\x7d"
      = (⟨some [("a", "x"), ("b", ""), ("z", "1")]⟩, some GoError.wrongType) := by
  decide

/-- C3, amended.  For every state and every source stream for which
`RecoverFromSnapshot` returns an error and whose first JSON value is not an object
(the text is not well-formed JSON, truncated for example, or the value is an
array, a number, a string or a boolean), the state after the call is the state
before it. -/
theorem recover_error_unchanged (s : KVStateMachine) (src : String)
    (herr : (RecoverFromSnapshot s src).2 ≠ none)
    (hobj : ∀ ms, scanFirst src ≠ some (JVal.obj ms)) :
    (RecoverFromSnapshot s src).1 = s := by
  simp only [RecoverFromSnapshot, decodeMapStream] at herr ⊢
  cases h : scanFirst src with
  | none => simp
  | some v =>
    rw [h] at herr
    cases v with
    | null => simp [decodeMap] at herr
    | obj ms => exact absurd h (hobj ms)
    | bool => simp [decodeMap]
    | num => simp [decodeMap]
    | str x => simp [decodeMap]
    | arr => simp [decodeMap]

/-- Witness of `recover_error_unchanged`: a truncated object. -/
theorem recover_error_unchanged_witness :
    (RecoverFromSnapshot ⟨some [("z", "1")]⟩ "\x7b\"a\":\"x\"").2 ≠ none ∧
    (RecoverFromSnapshot ⟨some [("z", "1")]⟩ "\x7b\"a\":\"x\"").1 = ⟨some [("z", "1")]⟩ :=
  ⟨by decide,
   recover_error_unchanged ⟨some [("z", "1")]⟩ "\x7b\"a\":\"x\"" (by decide)
    (by
      have h : scanFirst "\x7b\"a\":\"x\"" = none := rfl
      intro ms hms
      rw [h] at hms
      exact Option.noConfusion hms)⟩

/-! ## Commands without a `Set` -/

theorem foldl_decodeRequestMember_skip (ms : List (String × JVal))
    (h : ∀ kv ∈ ms, fieldMatches "Set" kv.1 = false) :
    ∀ acc, ms.foldl decodeRequestMember acc = acc := by
  induction ms with
  | nil => intro acc; rfl
  | cons hd t ih =>
    intro acc
    have h1 := h hd (List.mem_cons_self _ _)
    simp only [List.foldl_cons, decodeRequestMember, h1]
    exact ih (fun kv hkv => h kv (List.mem_cons_of_mem _ hkv)) acc

/-- C5, as the claim states it, fails: the payloads `{}`, `null` and an object
carrying only the unknown kind `Delete` are accepted; `Update` returns
`Result{Value: 0}` and no error. -/
theorem update_accepts_non_set :
    Update ⟨some []⟩ ⟨5, "\x7b\x7d"⟩ = (⟨some []⟩, Exec.returned (⟨0⟩, none)) ∧
    Update ⟨some []⟩ ⟨5, "null"⟩ = (⟨some []⟩, Exec.returned (⟨0⟩, none)) ∧
    Update ⟨some []⟩ ⟨5, "\x7b\"Delete\":\x7b\"key\":\"a\"\x7d\x7d"⟩
      = (⟨some []⟩, Exec.returned (⟨0⟩, none)) := by
  decide

/-- C5, amended.  `Update` returns a decode error for every payload that is not
well-formed JSON and for every well-formed payload that is neither an object nor
`null`.  A payload that is `null`, or an object none of whose keys selects the
field `Set`, is accepted as a no-op: `Update` returns `Result{Value: 0}` and no
error.  In all four cases the state is unchanged. -/
theorem update_rejects_only_undecodable (s : KVStateMachine) (e : Entry) :
    (scanWhole e.Cmd = none →
      Update s e = (s, Exec.returned (⟨0⟩, some GoError.notJSON))) ∧
    (∀ v, scanWhole e.Cmd = some v → v ≠ JVal.null → (∀ ms, v ≠ JVal.obj ms) →
      Update s e = (s, Exec.returned (⟨0⟩, some GoError.wrongType))) ∧
    (scanWhole e.Cmd = some JVal.null →
      Update s e = (s, Exec.returned (⟨0⟩, none))) ∧
    (∀ ms, scanWhole e.Cmd = some (JVal.obj ms) →
      (∀ kv ∈ ms, fieldMatches "Set" kv.1 = false) →
      Update s e = (s, Exec.returned (⟨0⟩, none))) := by
  refine ⟨?_, ?_, ?_, ?_⟩
  · intro h
    exact Update_of_error s e _ (by simp [unmarshalRequest, h])
  · intro v h hnull hobj
    apply Update_of_error s e
    cases v with
    | null => exact absurd rfl hnull
    | obj ms => exact absurd rfl (hobj ms)
    | bool => simp [unmarshalRequest, h, decodeRequest]
    | num => simp [unmarshalRequest, h, decodeRequest]
    | str x => simp [unmarshalRequest, h, decodeRequest]
    | arr => simp [unmarshalRequest, h, decodeRequest]
  · intro h
    exact Update_of_no_set s e (by simp [unmarshalRequest, h, decodeRequest])
      (by simp [unmarshalRequest, h, decodeRequest])
  · intro ms h hms
    have := foldl_decodeRequestMember_skip ms hms (⟨none⟩, none)
    exact Update_of_no_set s e (by simp [unmarshalRequest, h, decodeRequest, this])
      (by simp [unmarshalRequest, h, decodeRequest, this])

/-- Witness of `update_rejects_only_undecodable`: a truncated payload is rejected,
the payload `null` is accepted. -/
theorem update_rejects_only_undecodable_witness :
    Update ⟨some [("a", "1")]⟩ ⟨3, "\x7b\"Set\""⟩
      = (⟨some [("a", "1")]⟩, Exec.returned (⟨0⟩, some GoError.notJSON)) ∧
    Update ⟨some [("a", "1")]⟩ ⟨3, "null"⟩
      = (⟨some [("a", "1")]⟩, Exec.returned (⟨0⟩, none)) :=
  ⟨(update_rejects_only_undecodable ⟨some [("a", "1")]⟩ ⟨3, "\x7b\"Set\""⟩).1 rfl,
   (update_rejects_only_undecodable ⟨some [("a", "1")]⟩ ⟨3, "null"⟩).2.2.1 rfl⟩

/-! ## Determinism -/

theorem applyEntries_same_commands (es1 : List Entry) : ∀ (es2 : List Entry) (m : Entries),
    KeysIncreasing m → es1.map Entry.Cmd = es2.map Entry.Cmd →
    (applyEntries ⟨some m⟩ es1).1 = (applyEntries ⟨some m⟩ es2).1 := by
  induction es1 with
  | nil =>
    intro es2 m _ h
    cases es2 with
    | nil => rfl
    | cons e t => simp at h
  | cons e1 t1 ih =>
    intro es2 m hm h
    cases es2 with
    | nil => simp at h
    | cons e2 t2 =>
      simp only [List.map_cons, List.cons.injEq] at h
      obtain ⟨hc, ht⟩ := h
      obtain ⟨m1, r1, h1, hm1⟩ := Update_wellFormed m hm e1
      obtain ⟨m2, r2, h2, _⟩ := Update_wellFormed m hm e2
      have hs : (Update ⟨some m⟩ e1).1 = (Update ⟨some m⟩ e2).1 := by
        obtain ⟨i1, cmd1⟩ := e1
        obtain ⟨i2, cmd2⟩ := e2
        simp only at hc
        subst hc
        exact Update_state_index ⟨some m⟩ i1 i2 cmd1
      rw [h1, h2] at hs
      have hmm : m1 = m2 := by
        simpa using hs
      subst hmm
      simp only [applyEntries, h1, h2]
      exact ih t2 m1 hm1 ht

/-- C8.  Two instances created by `NewKVStateMachine`, with any cluster and node
identifiers, to which the same command payloads are applied in the same order,
with any log indices on either side, end in the same state, and neither run
panics. -/
theorem determinism (c1 n1 c2 n2 : Nat) (es1 es2 : List Entry)
    (h : es1.map Entry.Cmd = es2.map Entry.Cmd) :
    (applyEntries (NewKVStateMachine c1 n1) es1).1
      = (applyEntries (NewKVStateMachine c2 n2) es2).1 ∧
    (applyEntries (NewKVStateMachine c1 n1) es1).2 = Exec.returned () ∧
    (applyEntries (NewKVStateMachine c2 n2) es2).2 = Exec.returned () := by
  obtain ⟨m1, h1, _⟩ := applyEntries_new c1 n1 es1
  obtain ⟨m2, h2, _⟩ := applyEntries_new c2 n2 es2
  refine ⟨?_, by rw [h1], by rw [h2]⟩
  exact applyEntries_same_commands es1 es2 [] List.Pairwise.nil h

/-- Witness of `determinism`: the same two payloads under different identifiers
and log indices. -/
theorem determinism_witness :
    (applyEntries (NewKVStateMachine 1 1)
        [⟨1, "\x7b\"Set\":\x7b\"key\":\"a\",\"value\":\"1\"\x7d\x7d"⟩, ⟨2, "\x7b\x7d"⟩]).1
      = (applyEntries (NewKVStateMachine 128 3)
        [⟨10, "\x7b\"Set\":\x7b\"key\":\"a\",\"value\":\"1\"\x7d\x7d"⟩, ⟨40, "\x7b\x7d"⟩]).1 ∧
    (applyEntries (NewKVStateMachine 1 1)
        [⟨1, "\x7b\"Set\":\x7b\"key\":\"a\",\"value\":\"1\"\x7d\x7d"⟩, ⟨2, "\x7b\x7d"⟩]).2
      = Exec.returned () ∧
    (applyEntries (NewKVStateMachine 128 3)
        [⟨10, "\x7b\"Set\":\x7b\"key\":\"a\",\"value\":\"1\"\x7d\x7d"⟩, ⟨40, "\x7b\x7d"⟩]).2
      = Exec.returned () :=
  determinism 1 1 128 3
    [⟨1, "\x7b\"Set\":\x7b\"key\":\"a\",\"value\":\"1\"\x7d\x7d"⟩, ⟨2, "\x7b\x7d"⟩]
    [⟨10, "\x7b\"Set\":\x7b\"key\":\"a\",\"value\":\"1\"\x7d\x7d"⟩, ⟨40, "\x7b\x7d"⟩]
    (by decide)

/-! ## The frame of `Update` -/

/-- C10.  `Update` touches at most one slot.  For every state and payload: every
key other than the key of a decoded `Set` has afterwards the value, or the
absence, it had before; when `Update` returns an error the state is unchanged;
when the payload decodes without a `Set` the state is unchanged. -/
theorem update_frame (s : KVStateMachine) (e : Entry) :
    (∀ k, (∀ set, unmarshalRequest e.Cmd ⟨none⟩ = (⟨some set⟩, none) → set.Key ≠ k) →
      (Update s e).1.data.bind (mapGet k) = s.data.bind (mapGet k)) ∧
    (∀ res err, (Update s e).2 = Exec.returned (res, some err) → (Update s e).1 = s) ∧
    ((unmarshalRequest e.Cmd ⟨none⟩).1.Set = none → (Update s e).1 = s) := by
  cases h1 : (unmarshalRequest e.Cmd ⟨none⟩).2 with
  | some err =>
    rw [Update_of_error s e err h1]
    exact ⟨fun _ _ => rfl, fun _ _ _ => rfl, fun _ => rfl⟩
  | none =>
    cases h2 : (unmarshalRequest e.Cmd ⟨none⟩).1.Set with
    | none =>
      rw [Update_of_no_set s e h1 h2]
      exact ⟨fun _ _ => rfl, fun _ _ _ => rfl, fun _ => rfl⟩
    | some set =>
      have hreq : unmarshalRequest e.Cmd ⟨none⟩ = (⟨some set⟩, none) := by
        apply Prod.ext
        · cases hx : (unmarshalRequest e.Cmd ⟨none⟩).1 with
          | mk st =>
            rw [hx] at h2
            simp only at h2
            rw [h2]
        · exact h1
      obtain ⟨data⟩ := s
      cases data with
      | none =>
        rw [Update_of_set_nil e set h1 h2]
        exact ⟨fun _ _ => rfl, fun _ _ _ => rfl, fun h => Option.noConfusion h⟩
      | some m =>
        rw [Update_of_set m e set h1 h2]
        refine ⟨?_, ?_, fun h => Option.noConfusion h⟩
        · intro k hk
          have hne : k ≠ set.Key := fun hh => hk set hreq hh.symm
          simp [mapGet_mapPut_other set.Key set.Value k m hne]
        · intro res err h
          simp at h

/-- Witness of `update_frame`: `Set{b, 2}` leaves the key `a` alone, and the
payload without a `Set` leaves the state alone. -/
theorem update_frame_witness :
    (Update ⟨some [("a", "1")]⟩
        ⟨4, "\x7b\"Set\":\x7b\"key\":\"b\",\"value\":\"2\"\x7d\x7d"⟩).1.data.bind (mapGet "a")
      = (KVStateMachine.mk (some [("a", "1")])).data.bind (mapGet "a") ∧
    (Update ⟨some [("a", "1")]⟩ ⟨4, "\x7b\x7d"⟩).1 = ⟨some [("a", "1")]⟩ :=
  ⟨(update_frame ⟨some [("a", "1")]⟩
      ⟨4, "\x7b\"Set\":\x7b\"key\":\"b\",\"value\":\"2\"\x7d\x7d"⟩).1 "a"
    (by
      have h : unmarshalRequest "\x7b\"Set\":\x7b\"key\":\"b\",\"value\":\"2\"\x7d\x7d" ⟨none⟩
          = (⟨some ⟨"b", "2"⟩⟩, none) := by decide
      intro set hset
      rw [h] at hset
      simp only [Prod.mk.injEq, OpenRaftRequest.mk.injEq, Option.some.injEq, and_true] at hset
      rw [← hset]
      decide),
   (update_frame ⟨some [("a", "1")]⟩ ⟨4, "\x7b\x7d"⟩).2.2 (by decide)⟩
